import Mathlib

/-!
Shallow embedding of the Snake game engine in `src/src/App.tsx`.

The engine state consists of the React state variables `snake`, `food`,
`gameOver`, `score`, `isPaused` plus the mutable ref `directionRef`.
Coordinates are JavaScript numbers used only as (possibly negative)
integers here, so they are modelled as `Int`.

Randomness (`Math.random` in `generateFood`) is modelled by passing the
sequence of drawn candidate cells as an explicit list; the rejection
do-while loop becomes a structural recursion over that list returning
`Option`, with `none` when the finite list of draws is exhausted.
-/

namespace Snake

/-- `interface Position { x: number; y: number }` (App.tsx lines 3-6). -/
structure Pos where
  x : Int
  y : Int
deriving DecidableEq, Repr

instance : Inhabited Pos := ⟨⟨0, 0⟩⟩

/-- `const GRID_SIZE = 20` (App.tsx line 8). -/
def GRID_SIZE : Int := 20

/-- `const INITIAL_SNAKE: Position[] = [{ x: 10, y: 10 }]` (App.tsx line 10). -/
def INITIAL_SNAKE : List Pos := [⟨10, 10⟩]

/-- `const INITIAL_DIRECTION: Position = { x: 1, y: 0 }` (App.tsx line 11). -/
def INITIAL_DIRECTION : Pos := ⟨1, 0⟩

/-- The React state of `App` plus the `directionRef` ref (App.tsx lines 15-21).
`direction` models `directionRef.current`: the single buffer that key presses
write and that `moveSnake` reads at tick time. -/
structure GameState where
  snake : List Pos
  food : Pos
  gameOver : Bool
  score : Nat
  isPaused : Bool
  direction : Pos
deriving DecidableEq, Repr

/-- The state after mount: `useState(INITIAL_SNAKE)`, `useState({x:15,y:15})`,
`useState(false)`, `useState(0)`, `useState(false)`, `useRef(INITIAL_DIRECTION)`
(App.tsx lines 15-20). -/
def initState : GameState :=
  { snake := INITIAL_SNAKE
    food := ⟨15, 15⟩
    gameOver := false
    score := 0
    isPaused := false
    direction := INITIAL_DIRECTION }

/-- `generateFood` (App.tsx lines 24-35): draw candidates until one collides
with no segment of `snake`.  Note that the closure captures the React state
`snake`, which during a tick is still the pre-move snake.  The stream of
`Math.floor(Math.random() * GRID_SIZE)` draws is the explicit `draws` list;
the do-while keeps redrawing `while (snake.some(seg => seg.x === c.x && seg.y === c.y))`. -/
def generateFood (snake : List Pos) : List Pos → Option Pos
  | [] => none
  | c :: cs =>
      if snake.any fun seg => seg.x == c.x && seg.y == c.y then
        generateFood snake cs
      else
        some c

/-- `checkCollision` (App.tsx lines 38-53): wall collision when a coordinate
leaves `[0, GRID_SIZE)`; self collision when the head equals a segment at
`index > 0` (the elements of `snake.drop 1`). -/
def checkCollision (snake : List Pos) (head : Pos) : Bool :=
  if head.x < 0 ∨ GRID_SIZE ≤ head.x ∨ head.y < 0 ∨ GRID_SIZE ≤ head.y then
    true
  else
    (snake.drop 1).any fun seg => seg.x == head.x && seg.y == head.y

/-- The head moved one cell: `head.x += currentDir.x; head.y += currentDir.y`
applied to `{ ...prevSnake[0] }` (App.tsx lines 61-66). -/
def nextHead (s : GameState) : Pos :=
  ⟨s.snake.headI.x + s.direction.x, s.snake.headI.y + s.direction.y⟩

/-- One timer tick.  The game-loop effect (App.tsx lines 56-95) registers
`moveSnake` only when `!(gameOver || isPaused)`, so in any other phase a tick
changes nothing.  Otherwise `moveSnake` (lines 59-86) runs: move the head,
go to game over on collision (snake unchanged), else prepend the head; if the
head is on the food, generate new food against the stale pre-move `snake` and
add 10 to the score (no tail pop); else pop the tail. -/
def step (draws : List Pos) (s : GameState) : Option GameState :=
  if s.gameOver || s.isPaused then
    some s
  else if checkCollision s.snake (nextHead s) then
    some { s with gameOver := true }
  else if (nextHead s).x == s.food.x && (nextHead s).y == s.food.y then
    match generateFood s.snake draws with
    | none => none
    | some f =>
        some { s with snake := nextHead s :: s.snake, food := f, score := s.score + 10 }
  else
    some { s with snake := (nextHead s :: s.snake).dropLast }

/-- The keys `handleKeyPress` (App.tsx lines 99-136) distinguishes:
Space, Enter, p/P, the four arrows, and anything else. -/
inductive Key where
  | space
  | enter
  | keyP
  | up
  | down
  | left
  | right
  | other
deriving DecidableEq, Repr

/-- The `keyMap` of App.tsx lines 118-123 (`none` for keys not in the map). -/
def keyDir : Key → Option Pos
  | .up => some ⟨0, -1⟩
  | .down => some ⟨0, 1⟩
  | .left => some ⟨-1, 0⟩
  | .right => some ⟨1, 0⟩
  | _ => none

/-- `handleKeyPress` (App.tsx lines 99-136).  While `gameOver`, Space/Enter
resets everything (lines 100-111) and every other key is ignored.  Otherwise
Space/p/P toggles `isPaused` (lines 113-116), and an arrow key updates
`directionRef.current` unless `newDirection.x === -currentDir.x` or
`newDirection.y === -currentDir.y` (lines 125-135) — the comparison is against
the current contents of the single `directionRef` buffer. -/
def handleKey (k : Key) (s : GameState) : GameState :=
  if s.gameOver then
    if k = .space ∨ k = .enter then
      { snake := INITIAL_SNAKE
        food := ⟨15, 15⟩
        direction := INITIAL_DIRECTION
        gameOver := false
        score := 0
        isPaused := false }
    else s
  else if k = .space ∨ k = .keyP then
    { s with isPaused := !s.isPaused }
  else
    match keyDir k with
    | none => s
    | some nd =>
        if nd.x ≠ -s.direction.x ∧ nd.y ≠ -s.direction.y then
          { s with direction := nd }
        else s

/-- The phase named by the spec, derived from the two booleans of the code. -/
inductive Phase where
  | Running
  | Paused
  | GameOver
deriving DecidableEq, Repr

def phase (s : GameState) : Phase :=
  if s.gameOver then .GameOver
  else if s.isPaused then .Paused
  else .Running

/-- The states the engine can actually be in: the mount state, closed under
ticks and key events. -/
inductive Reachable : GameState → Prop
  | init : Reachable initState
  | tick {s s' : GameState} (draws : List Pos) :
      Reachable s → step draws s = some s' → Reachable s'
  | key {s : GameState} (k : Key) :
      Reachable s → Reachable (handleKey k s)

/-- The four direction vectors that ever enter `directionRef`
(`INITIAL_DIRECTION` and the values of `keyMap`). -/
abbrev UnitDir (d : Pos) : Prop :=
  d = ⟨1, 0⟩ ∨ d = ⟨-1, 0⟩ ∨ d = ⟨0, 1⟩ ∨ d = ⟨0, -1⟩

/-- The engine invariant: the snake occupies pairwise distinct cells, is never
empty, and the direction buffer holds one of the four unit vectors. -/
abbrev Inv (s : GameState) : Prop :=
  s.snake.Nodup ∧ 1 ≤ s.snake.length ∧ UnitDir s.direction

/-- A reachable state with a bent snake: from the mount state, five ticks to
the right, an ArrowDown press, five ticks down (the last one eating the food
at (15,15) with the fresh food drawn at (0,0)), then an ArrowRight press. -/
def bentState : GameState :=
  { snake := [⟨15, 15⟩, ⟨15, 14⟩]
    food := ⟨0, 0⟩
    gameOver := false
    score := 10
    isPaused := false
    direction := ⟨1, 0⟩ }

/-! ### Helper lemmas -/

theorem phase_running_iff (s : GameState) :
    phase s = .Running ↔ s.gameOver = false ∧ s.isPaused = false := by
  unfold phase
  cases hg : s.gameOver <;> cases hp : s.isPaused <;> simp

theorem checkCollision_of_wall {snake : List Pos} {head : Pos}
    (h : head.x < 0 ∨ GRID_SIZE ≤ head.x ∨ head.y < 0 ∨ GRID_SIZE ≤ head.y) :
    checkCollision snake head = true := by
  unfold checkCollision
  rw [if_pos h]

theorem checkCollision_of_tailMem {snake : List Pos} {head : Pos}
    (h : head ∈ snake.drop 1) : checkCollision snake head = true := by
  unfold checkCollision
  split
  · rfl
  · rw [List.any_eq_true]
    exact ⟨head, h, by simp⟩

theorem not_tailMem_of_checkCollision_false {snake : List Pos} {head : Pos}
    (hc : checkCollision snake head = false) : head ∉ snake.drop 1 := by
  intro hmem
  rw [checkCollision_of_tailMem hmem] at hc
  exact Bool.true_eq_false.mp hc

theorem UnitDir.ne_zero {d : Pos} (h : UnitDir d) : d.x ≠ 0 ∨ d.y ≠ 0 := by
  rcases h with h | h | h | h <;> subst h <;> simp

theorem nextHead_ne_headI {s : GameState} (h : UnitDir s.direction) :
    nextHead s ≠ s.snake.headI := by
  intro heq
  have hx := congrArg Pos.x heq
  have hy := congrArg Pos.y heq
  simp only [nextHead] at hx hy
  have hdx : s.direction.x = 0 := by omega
  have hdy : s.direction.y = 0 := by omega
  rcases UnitDir.ne_zero h with h0 | h0 <;> exact h0 (by assumption)

theorem nextHead_not_mem {s : GameState} (hlen : s.snake ≠ [])
    (hd : UnitDir s.direction)
    (hc : checkCollision s.snake (nextHead s) = false) :
    nextHead s ∉ s.snake := by
  intro hmem
  cases hsn : s.snake with
  | nil => exact hlen hsn
  | cons a t =>
      rw [hsn] at hmem hc
      rcases List.mem_cons.mp hmem with heq | hmemt
      · have hhd : nextHead s = s.snake.headI := by
          rw [hsn]
          exact heq
        exact nextHead_ne_headI hd hhd
      · have htail : nextHead s ∈ (a :: t).drop 1 := by simpa using hmemt
        exact not_tailMem_of_checkCollision_false hc htail

theorem key_inv {k : Key} {s : GameState} (h : Inv s) : Inv (handleKey k s) := by
  have hreset : Inv
      { snake := INITIAL_SNAKE, food := ⟨15, 15⟩, direction := INITIAL_DIRECTION,
        gameOver := false, score := 0, isPaused := false } := by
    refine ⟨?_, ?_, ?_⟩ <;> decide
  cases k <;> unfold handleKey <;> simp only [keyDir] <;> split_ifs <;>
    first
      | exact h
      | exact hreset
      | exact ⟨h.1, h.2.1, h.2.2⟩
      | exact ⟨h.1, h.2.1, Or.inl rfl⟩
      | exact ⟨h.1, h.2.1, Or.inr (Or.inl rfl)⟩
      | exact ⟨h.1, h.2.1, Or.inr (Or.inr (Or.inl rfl))⟩
      | exact ⟨h.1, h.2.1, Or.inr (Or.inr (Or.inr rfl))⟩

theorem step_inv {draws : List Pos} {s s2 : GameState}
    (h : Inv s) (hstep : step draws s = some s2) : Inv s2 := by
  have hlen : s.snake ≠ [] := List.ne_nil_of_length_pos h.2.1
  unfold step at hstep
  split at hstep
  · obtain rfl : s = s2 := Option.some.inj hstep
    exact h
  · split at hstep
    · obtain rfl : { s with gameOver := true } = s2 := Option.some.inj hstep
      exact ⟨h.1, h.2.1, h.2.2⟩
    · split at hstep
      · split at hstep
        · exact absurd hstep (by simp)
        · obtain rfl := Option.some.inj hstep
          refine ⟨?_, ?_, h.2.2⟩
          · exact List.nodup_cons.mpr ⟨nextHead_not_mem hlen h.2.2 (by simp_all), h.1⟩
          · simp
      · obtain rfl := Option.some.inj hstep
        refine ⟨?_, ?_, h.2.2⟩
        · have hnodup : (nextHead s :: s.snake).Nodup :=
            List.nodup_cons.mpr ⟨nextHead_not_mem hlen h.2.2 (by simp_all), h.1⟩
          exact hnodup.sublist (List.dropLast_sublist _)
        · simpa [List.length_dropLast] using h.2.1

theorem reachable_inv {s : GameState} (h : Reachable s) : Inv s := by
  induction h with
  | init => refine ⟨?_, ?_, ?_⟩ <;> decide
  | tick draws hr hstep ih => exact step_inv ih hstep
  | key k hr ih => exact key_inv ih

/-! ### Claims -/

/-- C1, counterexample to the claim as stated.  With committed direction
(1,0) and snake [(5,5),(4,5)], the window Up-then-Left changes the buffer
first to (0,-1) and then to (-1,0): the Left request equals the exact
opposite of the direction committed at the previous step, yet it does change
the pending direction, because the code compares against the buffered value
(0,-1).  The next tick then commits (-1,0) and reverses the snake into its
second segment (4,5): game over. -/
theorem C1_counterexample :
    handleKey Key.up ⟨[⟨5, 5⟩, ⟨4, 5⟩], ⟨15, 15⟩, false, 0, false, ⟨1, 0⟩⟩ =
      ⟨[⟨5, 5⟩, ⟨4, 5⟩], ⟨15, 15⟩, false, 0, false, ⟨0, -1⟩⟩ ∧
    handleKey Key.left ⟨[⟨5, 5⟩, ⟨4, 5⟩], ⟨15, 15⟩, false, 0, false, ⟨0, -1⟩⟩ =
      ⟨[⟨5, 5⟩, ⟨4, 5⟩], ⟨15, 15⟩, false, 0, false, ⟨-1, 0⟩⟩ ∧
    step [] ⟨[⟨5, 5⟩, ⟨4, 5⟩], ⟨15, 15⟩, false, 0, false, ⟨-1, 0⟩⟩ =
      some ⟨[⟨5, 5⟩, ⟨4, 5⟩], ⟨15, 15⟩, true, 0, false, ⟨-1, 0⟩⟩ ∧
    phase ⟨[⟨5, 5⟩, ⟨4, 5⟩], ⟨15, 15⟩, true, 0, false, ⟨-1, 0⟩⟩ = Phase.GameOver := by
  decide

/-- C1 (amended): the anti-reversal check compares against the current
contents of the single direction buffer, so a setDirection request equal to
the exact opposite of the currently *buffered* direction leaves the buffer
unchanged; in particular a single opposite request in an inter-tick window
cannot change the direction, though two perpendicular requests in one window
can still commit the exact opposite of the previously committed direction. -/
theorem C1_noReversalAgainstBuffer (k : Key) (s : GameState) (nd : Pos)
    (hg : s.gameOver = false) (hkd : keyDir k = some nd)
    (hx : nd.x = -s.direction.x) (_hy : nd.y = -s.direction.y) :
    handleKey k s = s := by
  have hk : ¬(k = Key.space ∨ k = Key.keyP) := by
    cases k <;> simp_all [keyDir]
  unfold handleKey
  rw [if_neg (by simp [hg]), if_neg hk]
  simp only [hkd]
  rw [if_neg (fun hcon => hcon.1 hx)]

/-- Witness for C1: with the buffer at the initial direction (1,0), the Left
request (-1,0) is its exact opposite and is ignored. -/
theorem C1_noReversalAgainstBuffer_witness :
    handleKey Key.left initState = initState :=
  C1_noReversalAgainstBuffer Key.left initState ⟨-1, 0⟩ rfl rfl (by decide) (by decide)

/-- C2: the claim fails on the code.  With snake [(10,10)], direction (1,0)
and food at (11,10), the tick eats the food; the rejection loop tests the
drawn candidate (11,10) against the stale pre-move snake [(10,10)] only, so
the draw (11,10) is accepted and the new food sits exactly on the grown
snake head (11,10). -/
theorem C2_staleFoodBug :
    step [⟨11, 10⟩] ⟨[⟨10, 10⟩], ⟨11, 10⟩, false, 0, false, ⟨1, 0⟩⟩ =
      some ⟨[⟨11, 10⟩, ⟨10, 10⟩], ⟨11, 10⟩, false, 10, false, ⟨1, 0⟩⟩ ∧
    generateFood [⟨10, 10⟩] [⟨11, 10⟩] = some ⟨11, 10⟩ ∧
    (⟨11, 10⟩ : Pos) ∈ ([⟨11, 10⟩, ⟨10, 10⟩] : List Pos) := by
  decide

/-- C3: on a Running tick whose new head hits any segment of the pre-tick
snake, the step sets the phase to GameOver and leaves snake, food and score
unchanged.  The direction hypothesis (it is one of the four unit vectors, an
invariant of every reachable state) rules out the head standing still and
hitting segment 0. -/
theorem C3_selfCollision (draws : List Pos) (s : GameState)
    (hrun : phase s = .Running) (hs : s.snake ≠ [])
    (hd : UnitDir s.direction) (hmem : nextHead s ∈ s.snake) :
    step draws s = some { s with gameOver := true } ∧
    phase { s with gameOver := true } = Phase.GameOver ∧
    ({ s with gameOver := true }).snake = s.snake ∧
    ({ s with gameOver := true }).food = s.food ∧
    ({ s with gameOver := true }).score = s.score := by
  obtain ⟨hg, hp⟩ := (phase_running_iff s).mp hrun
  have hcol : checkCollision s.snake (nextHead s) = true := by
    cases hsn : s.snake with
    | nil => exact absurd hsn hs
    | cons a t =>
        rw [hsn] at hmem
        rcases List.mem_cons.mp hmem with heq | hmemt
        · exact absurd (by rw [hsn]; exact heq) (nextHead_ne_headI hd)
        · exact checkCollision_of_tailMem (by simpa using hmemt)
  refine ⟨?_, by simp [phase], rfl, rfl, rfl⟩
  unfold step
  rw [if_neg (by simp [hg, hp]), if_pos hcol]

/-- Witness for C3: the snake [(5,5),(5,6)] moving down runs its head into
its own second segment (5,6) and the game ends. -/
theorem C3_selfCollision_witness :
    step [] ⟨[⟨5, 5⟩, ⟨5, 6⟩], ⟨0, 0⟩, false, 0, false, ⟨0, 1⟩⟩ =
      some ⟨[⟨5, 5⟩, ⟨5, 6⟩], ⟨0, 0⟩, true, 0, false, ⟨0, 1⟩⟩ :=
  (C3_selfCollision [] ⟨[⟨5, 5⟩, ⟨5, 6⟩], ⟨0, 0⟩, false, 0, false, ⟨0, 1⟩⟩
    (by decide) (by decide) (by decide) (by decide)).1

/-- C4: on a Running tick whose new head leaves the board in x or y, the
step sets the phase to GameOver and leaves snake, food and score
unchanged. -/
theorem C4_wallCollision (draws : List Pos) (s : GameState)
    (hrun : phase s = .Running)
    (hout : (nextHead s).x < 0 ∨ GRID_SIZE ≤ (nextHead s).x ∨
      (nextHead s).y < 0 ∨ GRID_SIZE ≤ (nextHead s).y) :
    step draws s = some { s with gameOver := true } ∧
    phase { s with gameOver := true } = Phase.GameOver ∧
    ({ s with gameOver := true }).snake = s.snake ∧
    ({ s with gameOver := true }).food = s.food ∧
    ({ s with gameOver := true }).score = s.score := by
  obtain ⟨hg, hp⟩ := (phase_running_iff s).mp hrun
  refine ⟨?_, by simp [phase], rfl, rfl, rfl⟩
  unfold step
  rw [if_neg (by simp [hg, hp]), if_pos (checkCollision_of_wall hout)]

/-- Witness for C4: the scenario of the spec, a single-segment snake at
(0,5) stepping left to x = -1. -/
theorem C4_wallCollision_witness :
    step [] ⟨[⟨0, 5⟩], ⟨15, 15⟩, false, 0, false, ⟨-1, 0⟩⟩ =
      some ⟨[⟨0, 5⟩], ⟨15, 15⟩, true, 0, false, ⟨-1, 0⟩⟩ :=
  (C4_wallCollision [] ⟨[⟨0, 5⟩], ⟨15, 15⟩, false, 0, false, ⟨-1, 0⟩⟩
    (by decide) (by decide)).1

/-- C5: in every reachable state that is not in the GameOver phase, the
segments of the snake are pairwise distinct and the snake has at least one
segment.  Reachability is closure of the mount state under ticks and key
events, so this is exactly preservation of the invariant by step,
setDirection, togglePause and reset. -/
theorem C5_aliveInvariant (s : GameState) (h : Reachable s)
    (_hph : phase s ≠ Phase.GameOver) :
    s.snake.Nodup ∧ 1 ≤ s.snake.length := by
  have hinv := reachable_inv h
  exact ⟨hinv.1, hinv.2.1⟩

/-- Witness for C5: the mount state is reachable, alive, and satisfies the
invariant. -/
theorem C5_aliveInvariant_witness :
    initState.snake.Nodup ∧ 1 ≤ initState.snake.length :=
  C5_aliveInvariant initState Reachable.init (by decide)

/-- C6: a Running tick with no collision whose new head is exactly the food
cell, and whose rejection loop accepts a draw f, adds exactly 10 to the
score and grows the snake by exactly one segment: the new head is prepended
and no tail segment is removed. -/
theorem C6_eatFood (draws : List Pos) (s : GameState) (f : Pos)
    (hrun : phase s = .Running)
    (hc : checkCollision s.snake (nextHead s) = false)
    (hf : nextHead s = s.food)
    (hgen : generateFood s.snake draws = some f) :
    step draws s =
      some { s with snake := nextHead s :: s.snake, food := f, score := s.score + 10 } ∧
    (nextHead s :: s.snake).length = s.snake.length + 1 := by
  obtain ⟨hg, hp⟩ := (phase_running_iff s).mp hrun
  refine ⟨?_, by simp⟩
  unfold step
  rw [if_neg (by simp [hg, hp]), if_neg (by simp [hc]),
    if_pos (by rw [hf]; simp), hgen]

/-- Witness for C6: the scenario of the spec, snake [(10,10)] moving right
onto the food at (11,10), with the fresh food drawn at (0,0). -/
theorem C6_eatFood_witness :
    step [⟨0, 0⟩] ⟨[⟨10, 10⟩], ⟨11, 10⟩, false, 0, false, ⟨1, 0⟩⟩ =
      some ⟨[⟨11, 10⟩, ⟨10, 10⟩], ⟨0, 0⟩, false, 10, false, ⟨1, 0⟩⟩ :=
  (C6_eatFood [⟨0, 0⟩] ⟨[⟨10, 10⟩], ⟨11, 10⟩, false, 0, false, ⟨1, 0⟩⟩ ⟨0, 0⟩
    (by decide) (by decide) (by decide) (by decide)).1

/-- C7: the reset branch (Space or Enter while game over) always yields the
single-segment snake at the fixed origin (10,10), the initial direction
(1,0), score 0, the Running phase, and a food position disjoint from the
snake.  In the code the restored food is the fixed cell (15,15), which is
disjoint from the initial snake. -/
theorem C7_reset (k : Key) (s : GameState)
    (hk : k = Key.space ∨ k = Key.enter) (hg : s.gameOver = true) :
    (handleKey k s).snake = INITIAL_SNAKE ∧
    (handleKey k s).direction = INITIAL_DIRECTION ∧
    (handleKey k s).score = 0 ∧
    phase (handleKey k s) = Phase.Running ∧
    (handleKey k s).food ∉ (handleKey k s).snake := by
  unfold handleKey
  rw [if_pos hg, if_pos hk]
  refine ⟨rfl, rfl, rfl, by decide, by decide⟩

/-- Witness for C7: pressing Space in a game-over state restores the mount
configuration. -/
theorem C7_reset_witness :
    (handleKey Key.space ⟨[⟨3, 3⟩, ⟨4, 3⟩], ⟨7, 7⟩, true, 40, false, ⟨0, 1⟩⟩).snake =
      INITIAL_SNAKE ∧
    (handleKey Key.space ⟨[⟨3, 3⟩, ⟨4, 3⟩], ⟨7, 7⟩, true, 40, false, ⟨0, 1⟩⟩).direction =
      INITIAL_DIRECTION ∧
    (handleKey Key.space ⟨[⟨3, 3⟩, ⟨4, 3⟩], ⟨7, 7⟩, true, 40, false, ⟨0, 1⟩⟩).score = 0 ∧
    phase (handleKey Key.space ⟨[⟨3, 3⟩, ⟨4, 3⟩], ⟨7, 7⟩, true, 40, false, ⟨0, 1⟩⟩) =
      Phase.Running ∧
    (handleKey Key.space ⟨[⟨3, 3⟩, ⟨4, 3⟩], ⟨7, 7⟩, true, 40, false, ⟨0, 1⟩⟩).food ∉
      (handleKey Key.space ⟨[⟨3, 3⟩, ⟨4, 3⟩], ⟨7, 7⟩, true, 40, false, ⟨0, 1⟩⟩).snake :=
  C7_reset Key.space ⟨[⟨3, 3⟩, ⟨4, 3⟩], ⟨7, 7⟩, true, 40, false, ⟨0, 1⟩⟩
    (Or.inl rfl) rfl

/-- C10: in every reachable state the direction buffer holds one of the four
unit vectors, the next head sits in a cell orthogonally adjacent to the
current head, and in particular it never equals the current head. -/
theorem C10_directionUnit (s : GameState) (h : Reachable s) :
    (s.direction = ⟨1, 0⟩ ∨ s.direction = ⟨-1, 0⟩ ∨
      s.direction = ⟨0, 1⟩ ∨ s.direction = ⟨0, -1⟩) ∧
    (nextHead s).x - s.snake.headI.x + ((nextHead s).y - s.snake.headI.y) = s.direction.x + s.direction.y ∧
    ((nextHead s).x - s.snake.headI.x) ^ 2 + ((nextHead s).y - s.snake.headI.y) ^ 2 = 1 ∧
    nextHead s ≠ s.snake.headI := by
  have hd := (reachable_inv h).2.2
  refine ⟨hd, by simp [nextHead], ?_, nextHead_ne_headI hd⟩
  rcases hd with h0 | h0 | h0 | h0 <;> simp [nextHead, h0]

/-- Booleans of the post-keypress state when the key is neither the reset
branch nor the pause branch: both are untouched. -/
theorem handleKey_keeps_booleans {k : Key} {s : GameState}
    (hg : s.gameOver = false) (hk : ¬(k = Key.space ∨ k = Key.keyP)) :
    (handleKey k s).gameOver = s.gameOver ∧ (handleKey k s).isPaused = s.isPaused := by
  unfold handleKey
  rw [if_neg (by simp [hg]), if_neg hk]
  split
  · exact ⟨rfl, rfl⟩
  · split
    · exact ⟨rfl, rfl⟩
    · exact ⟨rfl, rfl⟩

/-- C8: the phase machine admits only the transitions of the spec.  A tick
either keeps the phase or moves Running to GameOver; a key event either
keeps the phase, toggles Running and Paused on the pause keys, or moves
GameOver to Running on the reset keys; the pause key p is a no-op in
GameOver; and a tick taken outside Running changes nothing at all. -/
theorem C8_phaseTransitions (draws : List Pos) (k : Key) (s s2 : GameState)
    (hstep : step draws s = some s2) :
    (phase s2 = phase s ∨ (phase s = .Running ∧ phase s2 = .GameOver)) ∧
    (phase (handleKey k s) = phase s ∨
      (phase s = .Running ∧ phase (handleKey k s) = .Paused ∧
        (k = Key.space ∨ k = Key.keyP)) ∨
      (phase s = .Paused ∧ phase (handleKey k s) = .Running ∧
        (k = Key.space ∨ k = Key.keyP)) ∨
      (phase s = .GameOver ∧ phase (handleKey k s) = .Running ∧
        (k = Key.space ∨ k = Key.enter))) ∧
    (s.gameOver = true → handleKey Key.keyP s = s) ∧
    (phase s ≠ .Running → s2 = s) := by
  have hA : s2 = s ∨ ((s.gameOver || s.isPaused) = false ∧
      (s2 = { s with gameOver := true } ∨
        (s2.gameOver = s.gameOver ∧ s2.isPaused = s.isPaused))) := by
    unfold step at hstep
    split at hstep
    · exact Or.inl (Option.some.inj hstep).symm
    · rename_i hgp
      have hgp2 : (s.gameOver || s.isPaused) = false := by simpa using hgp
      split at hstep
      · exact Or.inr ⟨hgp2, Or.inl (Option.some.inj hstep).symm⟩
      · split at hstep
        · split at hstep
          · exact absurd hstep (by simp)
          · obtain rfl := Option.some.inj hstep
            exact Or.inr ⟨hgp2, Or.inr ⟨rfl, rfl⟩⟩
        · obtain rfl := Option.some.inj hstep
          exact Or.inr ⟨hgp2, Or.inr ⟨rfl, rfl⟩⟩
  refine ⟨?_, ?_, ?_, ?_⟩
  · rcases hA with rfl | ⟨hgp, hrest⟩
    · exact Or.inl rfl
    · obtain ⟨hg, hp⟩ := Bool.or_eq_false_iff.mp hgp
      rcases hrest with rfl | ⟨h1, h2⟩
      · exact Or.inr ⟨(phase_running_iff s).mpr ⟨hg, hp⟩, by simp [phase]⟩
      · left
        unfold phase
        rw [h1, h2]
  · cases hgk : s.gameOver
    · by_cases hk : k = Key.space ∨ k = Key.keyP
      · have hkey : handleKey k s = { s with isPaused := !s.isPaused } := by
          unfold handleKey
          rw [if_neg (by simp [hgk]), if_pos hk]
        cases hpk : s.isPaused
        · refine Or.inr (Or.inl ⟨(phase_running_iff s).mpr ⟨hgk, hpk⟩, ?_, hk⟩)
          rw [hkey]
          simp [phase, hgk, hpk]
        · refine Or.inr (Or.inr (Or.inl ⟨by simp [phase, hgk, hpk], ?_, hk⟩))
          rw [hkey]
          simp [phase, hgk, hpk]
      · left
        obtain ⟨h1, h2⟩ := handleKey_keeps_booleans hgk hk
        unfold phase
        rw [h1, h2]
    · by_cases hk : k = Key.space ∨ k = Key.enter
      · have hkey : handleKey k s =
            { snake := INITIAL_SNAKE, food := ⟨15, 15⟩, direction := INITIAL_DIRECTION,
              gameOver := false, score := 0, isPaused := false } := by
          unfold handleKey
          rw [if_pos hgk, if_pos hk]
        refine Or.inr (Or.inr (Or.inr ⟨by simp [phase, hgk], ?_, hk⟩))
        rw [hkey]
        decide
      · left
        have hkey : handleKey k s = s := by
          unfold handleKey
          rw [if_pos hgk, if_neg hk]
        rw [hkey]
  · intro hg
    unfold handleKey
    rw [if_pos hg, if_neg (by decide)]
  · intro hnr
    rcases hA with rfl | ⟨hgp, _⟩
    · rfl
    · obtain ⟨hg, hp⟩ := Bool.or_eq_false_iff.mp hgp
      exact absurd ((phase_running_iff s).mpr ⟨hg, hp⟩) hnr

/-- Witness for C8: the pause key is a complete no-op in a game-over
state. -/
theorem C8_phaseTransitions_witness :
    handleKey Key.keyP ⟨[⟨10, 10⟩], ⟨15, 15⟩, true, 0, false, ⟨1, 0⟩⟩ =
      ⟨[⟨10, 10⟩], ⟨15, 15⟩, true, 0, false, ⟨1, 0⟩⟩ :=
  (C8_phaseTransitions [] Key.keyP ⟨[⟨10, 10⟩], ⟨15, 15⟩, true, 0, false, ⟨1, 0⟩⟩
    ⟨[⟨10, 10⟩], ⟨15, 15⟩, true, 0, false, ⟨1, 0⟩⟩ (by decide)).2.2.1 rfl

/-- The bent two-segment state is reachable: five ticks right, ArrowDown,
five ticks down with the last one eating the food at (15,15) and drawing the
new food at (0,0), then ArrowRight. -/
theorem reachable_bentState : Reachable bentState := by
  have h1 : Reachable ⟨[⟨11, 10⟩], ⟨15, 15⟩, false, 0, false, ⟨1, 0⟩⟩ :=
    Reachable.tick [] Reachable.init (by decide)
  have h2 : Reachable ⟨[⟨12, 10⟩], ⟨15, 15⟩, false, 0, false, ⟨1, 0⟩⟩ :=
    Reachable.tick [] h1 (by decide)
  have h3 : Reachable ⟨[⟨13, 10⟩], ⟨15, 15⟩, false, 0, false, ⟨1, 0⟩⟩ :=
    Reachable.tick [] h2 (by decide)
  have h4 : Reachable ⟨[⟨14, 10⟩], ⟨15, 15⟩, false, 0, false, ⟨1, 0⟩⟩ :=
    Reachable.tick [] h3 (by decide)
  have h5 : Reachable ⟨[⟨15, 10⟩], ⟨15, 15⟩, false, 0, false, ⟨1, 0⟩⟩ :=
    Reachable.tick [] h4 (by decide)
  have h6 : Reachable ⟨[⟨15, 10⟩], ⟨15, 15⟩, false, 0, false, ⟨0, 1⟩⟩ :=
    Reachable.key Key.down h5
  have h7 : Reachable ⟨[⟨15, 11⟩], ⟨15, 15⟩, false, 0, false, ⟨0, 1⟩⟩ :=
    Reachable.tick [] h6 (by decide)
  have h8 : Reachable ⟨[⟨15, 12⟩], ⟨15, 15⟩, false, 0, false, ⟨0, 1⟩⟩ :=
    Reachable.tick [] h7 (by decide)
  have h9 : Reachable ⟨[⟨15, 13⟩], ⟨15, 15⟩, false, 0, false, ⟨0, 1⟩⟩ :=
    Reachable.tick [] h8 (by decide)
  have h10 : Reachable ⟨[⟨15, 14⟩], ⟨15, 15⟩, false, 0, false, ⟨0, 1⟩⟩ :=
    Reachable.tick [] h9 (by decide)
  have h11 : Reachable ⟨[⟨15, 15⟩, ⟨15, 14⟩], ⟨0, 0⟩, false, 10, false, ⟨0, 1⟩⟩ :=
    Reachable.tick [⟨0, 0⟩] h10 (by decide)
  exact Reachable.key Key.right h11

/-- C9, counterexample to the claim as stated.  In the reachable bent state
with snake [(15,15),(15,14)] and direction (1,0), a collision-free tick that
eats no food yields the snake [(16,15),(15,15)]: the second segment moves to
(15,15), the former place of its predecessor, not to (16,14), the cell one
step in the current direction from its own former place (15,14). -/
theorem C9_counterexample :
    Reachable bentState ∧
    phase bentState = Phase.Running ∧
    checkCollision bentState.snake (nextHead bentState) = false ∧
    nextHead bentState ≠ bentState.food ∧
    step [] bentState = some ⟨[⟨16, 15⟩, ⟨15, 15⟩], ⟨0, 0⟩, false, 10, false, ⟨1, 0⟩⟩ ∧
    bentState.snake[1]? = some ⟨15, 14⟩ ∧
    (⟨15, 15⟩ : Pos) ≠ ⟨15 + bentState.direction.x, 14 + bentState.direction.y⟩ :=
  ⟨reachable_bentState, by decide, by decide, by decide, by decide, by decide, by decide⟩

/-- C9 (amended): a collision-free Running tick that eats no food prepends
the head advanced by exactly one cell in the current direction and drops the
last segment, so each remaining segment takes the former place of its
predecessor and the length of the snake is unchanged. -/
theorem C9_move (draws : List Pos) (s : GameState)
    (hrun : phase s = .Running) (hs : s.snake ≠ [])
    (hc : checkCollision s.snake (nextHead s) = false)
    (hnf : ¬((nextHead s).x = s.food.x ∧ (nextHead s).y = s.food.y)) :
    step draws s = some { s with snake := nextHead s :: s.snake.dropLast } ∧
    (nextHead s :: s.snake.dropLast).length = s.snake.length ∧
    (nextHead s :: s.snake.dropLast).headI =
      ⟨s.snake.headI.x + s.direction.x, s.snake.headI.y + s.direction.y⟩ ∧
    ∀ i : Nat, i + 1 < s.snake.length →
      (nextHead s :: s.snake.dropLast)[i + 1]? = s.snake[i]? := by
  obtain ⟨hg, hp⟩ := (phase_running_iff s).mp hrun
  have hlen : 1 ≤ s.snake.length := List.length_pos.mpr hs
  refine ⟨?_, ?_, rfl, ?_⟩
  · unfold step
    rw [if_neg (by simp [hg, hp]), if_neg (by simp [hc]),
      if_neg (by simp only [Bool.and_eq_true, beq_iff_eq]; exact hnf)]
    obtain ⟨a, t, hat⟩ := List.exists_cons_of_ne_nil hs
    rw [hat, List.dropLast_cons₂]
  · simp [List.length_dropLast]
    omega
  · intro i hi
    rw [List.getElem?_cons_succ, List.dropLast_eq_take,
      List.getElem?_take_of_lt (by omega)]

/-- Witness for C9: the bent state moves to [(16,15),(15,15)]. -/
theorem C9_move_witness :
    step [] bentState = some ⟨[⟨16, 15⟩, ⟨15, 15⟩], ⟨0, 0⟩, false, 10, false, ⟨1, 0⟩⟩ :=
  (C9_move [] bentState (by decide) (by decide) (by decide) (by decide)).1

/-- Witness for C10: the mount state. -/
theorem C10_directionUnit_witness :
    (initState.direction = ⟨1, 0⟩ ∨ initState.direction = ⟨-1, 0⟩ ∨
      initState.direction = ⟨0, 1⟩ ∨ initState.direction = ⟨0, -1⟩) ∧
    (nextHead initState).x - initState.snake.headI.x +
      ((nextHead initState).y - initState.snake.headI.y) =
      initState.direction.x + initState.direction.y ∧
    ((nextHead initState).x - initState.snake.headI.x) ^ 2 +
      ((nextHead initState).y - initState.snake.headI.y) ^ 2 = 1 ∧
    nextHead initState ≠ initState.snake.headI :=
  C10_directionUnit initState Reachable.init

end Snake
